import Mathlib

/-!
Verification of the YAML-subset parser in src/spec/upstream/parsePolyglot.py.

The development shallowly embeds the module: the line regular expressions
(commentLineRegex, yamlLineRegex) become executable match functions derived
from Python regex semantics, the yamlValue / list / dict / None values that
parseYAML_inner manipulates become the inductive type Node, the bidirectional
generator parseYAML_generator becomes a pushback stack plus a list of
remaining enumerated lines (GenState), and parseYAML_inner becomes a
fuel-indexed structural recursion.

Modelling conventions, each noted where it applies:
  * lines are carried without their trailing newline: the code only ever
    strips the newline (str.strip, str.rstrip, the regex tails) and never
    observes it otherwise, and lines pushed back by parseYAML_inner never
    contain one;
  * Python's str (and the yamlValue subclass) is String, None is Node.null;
  * the word-character class of the regex is modelled on its ASCII meaning;
  * files (os.path.isfile plus open) are modelled by an oracle mapping a
    name to the contents of the file of that name, if one exists.
-/

namespace ParsePolyglot

/-- Python whitespace, as used by str.strip, str.rstrip and the regex
class backslash-s (ASCII range). -/
def isPySpace (c : Char) : Bool :=
  c = ' ' || c = '\t' || c = '\n' || c = '\r' || c = '\x0b' || c = '\x0c'

/-- Drop leading Python whitespace from a character list. -/
def stripLeft : List Char → List Char
  | [] => []
  | c :: cs => if isPySpace c then stripLeft cs else c :: cs

/-- Drop trailing Python whitespace from a character list. -/
def stripRight (cs : List Char) : List Char :=
  (stripLeft cs.reverse).reverse

/-- Python str.strip() with no argument. -/
def pyStrip (s : String) : String :=
  ⟨stripRight (stripLeft s.data)⟩

/-- Python str.rstrip() with no argument. -/
def pyRstrip (s : String) : String :=
  ⟨stripRight s.data⟩

/-- commentLineRegex = caret backslash-s star hash, used with re.match:
the first character that is not Python whitespace is a hash mark. -/
def commentLineMatch : List Char → Bool
  | [] => false
  | c :: cs => if c = '#' then true else if isPySpace c then commentLineMatch cs else false

/-- Line 78 of the source: a line that is empty after strip, or that
commentLineRegex matches, is dropped by parseYAML_inner. -/
def isSkipLine (line : String) : Bool :=
  pyStrip line = "" || commentLineMatch line.data

/-- The character class of the key group of yamlLineRegex: word characters
(ASCII reading of backslash-w) and dots. -/
def isKeyChar (c : Char) : Bool :=
  c.isAlpha || c.isDigit || c = '_' || c = '.'

/-- The named groups of a successful yamlLineRegex match, None as none. -/
structure YamlGroups where
  indentG : String
  itemMarker : Option String
  itemContent : Option String
  key : Option String
  keyExtra : Option String
  content : Option String
deriving DecidableEq, Repr

/--
Executable form of yamlLineRegex.match (source lines 18 to 21).  The verbose
pattern, whitespace removed, is

  caret (indent: space star) ( (itemMarker: dash space plus) (itemContent: dot star) dollar
    | caret ( (key: keychar plus) (keyExtra: colon space star) )? (content: dot star) ) backslash-s star dollar

compiled without MULTILINE, so both carets match only at position 0.  The
consequences, mirrored here exactly:

  * the item alternative can only succeed with the indent group set to the
    full run of leading spaces (at shorter indents the next character is a
    space, not a dash), and requires a dash, at least one following space,
    and a dollar that only matches at the end or before one final newline;
  * the second alternative forces the indent group to backtrack to the empty
    string (its caret matches only at position 0), so the key group is
    tried at column 0 only, and a line whose leading character is a space
    can only produce an empty indent group with the whole body as content;
  * the key group takes the maximal run of key characters; because a colon
    is not a key character, shortening the run can never reach a colon, so
    the group matches exactly when that maximal run is nonempty and is
    followed immediately by a colon;
  * the trailing backslash-s star dollar accepts any all-whitespace tail, so
    for a body with no newline the content group is the whole remainder.

The body is everything before the first newline; the tail after it must be
all whitespace for any match at all (and empty or a lone newline for the
item alternative, whose internal dollar is stricter).
-/
def yamlLineMatch (line : String) : Option YamlGroups :=
  let body := line.data.takeWhile (fun c => c ≠ '\n')
  let tail := line.data.dropWhile (fun c => c ≠ '\n')
  let ind := body.takeWhile (fun c => c = ' ')
  let rest := body.dropWhile (fun c => c = ' ')
  if rest.length ≥ 2 ∧ rest.head? = some '-' ∧ rest.get? 1 = some ' '
      ∧ (tail = [] ∨ tail = ['\n']) then
    let sp := (rest.drop 1).takeWhile (fun c => c = ' ')
    some { indentG := ⟨ind⟩, itemMarker := some ⟨'-' :: sp⟩,
           itemContent := some ⟨rest.drop (1 + sp.length)⟩,
           key := none, keyExtra := none, content := none }
  else if tail.all isPySpace then
    let kr := body.takeWhile isKeyChar
    match body.dropWhile isKeyChar with
    | ':' :: after =>
      if kr = [] then
        some { indentG := "", itemMarker := none, itemContent := none,
               key := none, keyExtra := none, content := some ⟨body⟩ }
      else
        let sp2 := after.takeWhile (fun c => c = ' ')
        some { indentG := "", itemMarker := none, itemContent := none,
               key := some ⟨kr⟩, keyExtra := some ⟨':' :: sp2⟩,
               content := some ⟨after.drop sp2.length⟩ }
    | _ =>
      some { indentG := "", itemMarker := none, itemContent := none,
             key := none, keyExtra := none, content := some ⟨body⟩ }
  else
    none

/-- Python value space of parseYAML_inner: None, a yamlValue (a str subclass
carrying a linenumber), a list, or an insertion-ordered dict. -/
inductive Node where
  | null : Node
  | scalar : String → Nat → Node
  | seq : List Node → Node
  | dict : List (String × Node) → Node

/-- type(x).__name__ for the four value shapes. -/
def typeName : Node → String
  | .null => "NoneType"
  | .scalar _ _ => "yamlValue"
  | .seq _ => "list"
  | .dict _ => "dict"

/-- Python dict assignment d[k] = v: overwrite in place when the key exists,
else append, insertion order preserved. -/
def dictInsert : List (String × Node) → String → Node → List (String × Node)
  | [], k, v => [(k, v)]
  | (k1, v1) :: rest, k, v =>
    if k1 = k then (k1, v) :: rest else (k1, v1) :: dictInsert rest k v

/-- The two exceptions the module raises while parsing.  expectYAML's format
arguments are kept verbatim: the first is expected.__class__.__name__, which
is the name of the metaclass of the class passed as expected, hence always
the string "type"; the second is returnItem.__class__.__name__, the actual
value's class name; then the line number and the rstripped line. -/
inductive ParseError where
  | badYaml (expectedArg actualArg : String) (linenumber : Nat) (lineText : String)
  | unparseable (linenumber : Nat) (lineText : String)
deriving DecidableEq, Repr

/-- The isinstance checks of expectYAML, one constructor per class the
source passes as expected. -/
inductive PyClass where
  | listClass | dictClass | yamlValueClass
deriving DecidableEq, Repr

/-- isinstance(returnItem, expected) for the three classes used. -/
def PyClass.isInstance : PyClass → Node → Bool
  | .listClass, .seq _ => true
  | .dictClass, .dict _ => true
  | .yamlValueClass, .scalar _ _ => true
  | _, _ => false

/-- expectYAML (source lines 56 to 67): raise unless returnItem is an
instance of expected.  The first format argument of the message is
expected.__class__.__name__ = "type" (the metaclass name, a quirk kept
verbatim), the second is the actual class name.  parseYAML_inner below
inlines this check per constructor; this standalone form states exactly the
error it raises. -/
def expectYAML (returnItem : Node) (linenumber : Nat) (line : String)
    (expected : PyClass) : Except ParseError Unit :=
  if expected.isInstance returnItem then .ok ()
  else .error (.badYaml "type" (typeName returnItem) linenumber (pyRstrip line))

/-- State of parseYAML_generator (source lines 156 to 181): the backlines
pushback stack (Python appends and pops at the end of the list; here the top
of the stack is the head) and the remaining enumerated lines of the
underlying input. -/
structure GenState where
  backlines : List (Nat × String)
  source : List (Nat × String)
deriving DecidableEq, Repr

/-- One step of the generator's for/while loop from the consumer's side: a
pushed-back line if any is queued, else the next physical line, else
end of input (the generator returns once both are exhausted). -/
def GenState.next : GenState → Option ((Nat × String) × GenState)
  | ⟨b :: bs, src⟩ => some (b, ⟨bs, src⟩)
  | ⟨[], l :: ls⟩ => some (l, ⟨[], ls⟩)
  | ⟨[], []⟩ => none

/-- generator.send(pair): the pair is appended to backlines and will be the
next value yielded. -/
def GenState.send (st : GenState) (x : Nat × String) : GenState :=
  ⟨x :: st.backlines, st.source⟩

/-- n spaces, for the re-indented synthetic lines pushed back before each
recursive call. -/
def mkSpaces (n : Nat) : String :=
  ⟨List.replicate n ' '⟩

/-- The or-chain of source lines 93 to 96:
(content or itemContent or empty string), with Python truthiness (None and
the empty string are falsy). -/
def pyOrStr (a b : Option String) : String :=
  match a with
  | some s => if s = "" then b.getD "" else s
  | none => b.getD ""

/-- lineContent of source lines 93 to 96: the or-chain, stripped. -/
def lineContentOf (g : YamlGroups) : String :=
  pyStrip (pyOrStr g.content g.itemContent)

/--
Body of one loop step of parseYAML_inner (source lines 82 to 152), for a
line that is not blank or comment and that yamlLineRegex matched with groups
g.  The parameter recur is the continuation of the enclosing loop or a
recursive call to it (the source calls parseYAML_inner; the fuel-indexed
version below passes itself, one fuel unit down).

Extract the groups (lines 89 to 96); if the line's indent dropped below the
current level, push the line back and return (lines 99 to 104); on an item
marker, commit to a list (adopting the line's indent) or check the committed
kind, push back the re-indented payload, recurse one level deeper, append
(lines 107 to 120); on a key, the same with a dict and assignment (lines 123
to 137); otherwise accumulate scalar text: a fresh yamlValue with empty text
at this line, a multiline marker contributing nothing, nonempty text
extended with a newline and the payload keeping its linenumber, empty text
replaced by the payload at the current linenumber (lines 139 to 153).
-/
def parseYAML_classified
    (recur : GenState → Nat → Node → Option (Except ParseError (Node × GenState)))
    (linenumber : Nat) (line : String) (g : YamlGroups) (st1 : GenState)
    (indent : Nat) (returnItem : Node) :
    Option (Except ParseError (Node × GenState)) :=
  let lineIndent := g.indentG.length
  let lineKey := g.key.getD ""
  let lineKeyExtra := g.keyExtra.getD ""
  let lineContent := lineContentOf g
  if lineIndent < indent then
    some (.ok (returnItem, st1.send (linenumber, line)))
  else
  match g.itemMarker with
  | some marker =>
    match returnItem with
    | .null =>
      match recur
          (st1.send (linenumber, mkSpaces (lineIndent + marker.length) ++ lineContent))
          (lineIndent + 1) .null with
      | none => none
      | some (.error e) => some (.error e)
      | some (.ok (child, st2)) =>
        recur st2 lineIndent (.seq [child])
    | .seq items =>
      match recur
          (st1.send (linenumber, mkSpaces (lineIndent + marker.length) ++ lineContent))
          (indent + 1) .null with
      | none => none
      | some (.error e) => some (.error e)
      | some (.ok (child, st2)) =>
        recur st2 indent (.seq (items ++ [child]))
    | other =>
      some (.error (.badYaml "type" (typeName other) linenumber (pyRstrip line)))
  | none =>
    if lineKey ≠ "" then
      match returnItem with
      | .null =>
        match recur
            (st1.send (linenumber,
              mkSpaces (lineIndent + lineKey.length + lineKeyExtra.length) ++ lineContent))
            (lineIndent + 1) .null with
        | none => none
        | some (.error e) => some (.error e)
        | some (.ok (child, st2)) =>
          recur st2 lineIndent (.dict (dictInsert [] lineKey child))
      | .dict entries =>
        match recur
            (st1.send (linenumber,
              mkSpaces (lineIndent + lineKey.length + lineKeyExtra.length) ++ lineContent))
            (indent + 1) .null with
        | none => none
        | some (.error e) => some (.error e)
        | some (.ok (child, st2)) =>
          recur st2 indent (.dict (dictInsert entries lineKey child))
      | other =>
        some (.error (.badYaml "type" (typeName other) linenumber (pyRstrip line)))
    else
      match returnItem with
      | .null =>
        if pyStrip lineContent = "|" || pyStrip lineContent = "|-"
            || pyStrip lineContent = ">" then
          recur st1 indent (.scalar "" linenumber)
        else
          recur st1 indent (.scalar lineContent linenumber)
      | .scalar t ln =>
        if t = "" then
          recur st1 indent (.scalar lineContent linenumber)
        else
          recur st1 indent (.scalar (t ++ "\n" ++ lineContent) ln)
      | other =>
        some (.error (.badYaml "type" (typeName other) linenumber (pyRstrip line)))

/--
parseYAML_inner (source lines 70 to 153).  The for loop over the generator
is the recursion; the extra arguments are the loop state: returnItem (local
variable initialised to None, i.e. Node.null) and a fuel count that bounds
the number of loop steps so the recursion is structural (the source recurses
through a generator whose termination is not syntactic).  none means the
fuel ran out; the entry points below supply fuel that the inputs of every
theorem in this file are proved (or computed) to respect.

Per step: draw a line; drop it if blank or comment (line 78); match
yamlLineRegex, raising Unparseable on failure (lines 84 to 87); otherwise
hand the classified line to parseYAML_classified with this function, one
fuel unit down, as the recursion.
-/
def parseYAML_inner : Nat → GenState → Nat → Node →
    Option (Except ParseError (Node × GenState))
  | 0, _, _, _ => none
  | fuel + 1, st, indent, returnItem =>
    match st.next with
    | none => some (.ok (returnItem, st))
    | some ((linenumber, line), st1) =>
      if isSkipLine line then parseYAML_inner fuel st1 indent returnItem else
      match yamlLineMatch line with
      | none => some (.error (.unparseable linenumber (pyRstrip line)))
      | some g =>
        parseYAML_classified
          (fun st2 indent2 returnItem2 => parseYAML_inner fuel st2 indent2 returnItem2)
          linenumber line g st1 indent returnItem

/-- The dispatch parseYAML_inner performs on one drawn line (blank or
comment dropped, unmatched line raising, matched line handed to
parseYAML_classified), named so that proofs can speak about a single loop
step of the source's lines 77 to 96. -/
def parseYAML_step (fuel linenumber : Nat) (line : String) (st1 : GenState)
    (indent : Nat) (returnItem : Node) :
    Option (Except ParseError (Node × GenState)) :=
  if isSkipLine line then parseYAML_inner fuel st1 indent returnItem else
  match yamlLineMatch line with
  | none => some (.error (.unparseable linenumber (pyRstrip line)))
  | some g =>
    parseYAML_classified
      (fun st2 indent2 returnItem2 => parseYAML_inner fuel st2 indent2 returnItem2)
      linenumber line g st1 indent returnItem

/-- str.splitlines restricted to newline separators (the only terminator in
the inputs considered), yielding line bodies without the terminator; a final
piece appears only if nonempty. -/
def splitLinesAux : List Char → List Char → List String
  | acc, [] => if acc.isEmpty then [] else [⟨acc.reverse⟩]
  | acc, '\n' :: cs => ⟨acc.reverse⟩ :: splitLinesAux [] cs
  | acc, c :: cs => splitLinesAux (c :: acc) cs

/-- The line list a string argument of parseYAML is split into. -/
def splitLines (s : String) : List String :=
  splitLinesAux [] s.data

/-- enumerate(source) with linenumber + 1: lines numbered from m. -/
def enumFrom : Nat → List String → List (Nat × String)
  | _, [] => []
  | m, l :: ls => (m, l) :: enumFrom (m + 1) ls

/-- Fuel budget for a line list: generous enough for every run this file
proves something about (each drawn line, original, re-indented or pushed
back, costs one unit). -/
def fuelFor (ls : List String) : Nat :=
  ls.foldr (fun l a => a + l.length + 4) 4

/-- Run of parseYAML_inner from a fresh generator over the given lines,
keeping only the parsed value (the source discards the generator). -/
def parseYAMLlines (ls : List String) : Option (Except ParseError Node) :=
  (parseYAML_inner (fuelFor ls) ⟨[], enumFrom 1 ls⟩ 0 .null).map
    (fun r => r.map Prod.fst)

/-- parseYAML_generator, entry part (source lines 156 to 162): a string
argument naming an existing file is replaced by that file's lines, an
ordinary string is split into lines.  The filesystem is the oracle isfile:
the contents of the file of that name, if one exists. -/
def parseYAML_generator (isfile : String → Option String) (source : String) :
    List String :=
  match isfile source with
  | some contents => splitLines contents
  | none => splitLines source

/-- parseYAML (source lines 183 to 185), over the filesystem oracle. -/
def parseYAML (isfile : String → Option String) (source : String) :
    Option (Except ParseError Node) :=
  parseYAMLlines (parseYAML_generator isfile source)

/-- parseYAML on an in-memory string (no file of that name exists). -/
def parseYAMLtext (source : String) : Option (Except ParseError Node) :=
  parseYAML (fun _ => none) source

/-- Erase the linenumber recorded in every scalar of a tree (set it to 0):
two trees equal after erasure carry the same structure and the same text and
differ at most in recorded source line numbers. -/
def eraseLN : Node → Node
  | .null => .null
  | .scalar t _ => .scalar t 0
  | .seq items => .seq (items.attach.map (fun x => eraseLN x.1))
  | .dict entries => .dict (entries.attach.map (fun x => (x.1.1, eraseLN x.1.2)))
decreasing_by
  · simp_wf
    have h := List.sizeOf_lt_of_mem x.2
    omega
  · simp_wf
    obtain ⟨⟨a, b⟩, hmem⟩ := x
    have h := List.sizeOf_lt_of_mem hmem
    simp [Prod.mk.sizeOf_spec] at h ⊢
    omega

/-- The second line list is the first with blank or comment lines inserted
at arbitrary positions. -/
inductive SkipIns : List String → List String → Prop
  | nil : SkipIns [] []
  | same (s : String) {l l' : List String} :
      SkipIns l l' → SkipIns (s :: l) (s :: l')
  | ins (s : String) {l l' : List String} :
      isSkipLine s = true → SkipIns l l' → SkipIns l (s :: l')

/-- Enumerated line streams related up to line numbers and up to exactly k
inserted blank or comment lines on the right. -/
inductive StreamRel : Nat → List (Nat × String) → List (Nat × String) → Prop
  | nil : StreamRel 0 [] []
  | same (n n' : Nat) (s : String) {k : Nat} {l l' : List (Nat × String)} :
      StreamRel k l l' → StreamRel k ((n, s) :: l) ((n', s) :: l')
  | ins (n' : Nat) (s : String) {k : Nat} {l l' : List (Nat × String)} :
      isSkipLine s = true → StreamRel k l l' → StreamRel (k + 1) l ((n', s) :: l')

/-- Generator states related: pushback stacks line-for-line equal up to line
numbers, sources related up to k inserted blank or comment lines. -/
def RState (k : Nat) (st st' : GenState) : Prop :=
  StreamRel 0 st.backlines st'.backlines ∧ StreamRel k st.source st'.source

/-- Errors equal up to the recorded line number. -/
inductive ErrSim : ParseError → ParseError → Prop
  | badYaml (a b t : String) (n n' : Nat) :
      ErrSim (.badYaml a b n t) (.badYaml a b n' t)
  | unparseable (t : String) (n n' : Nat) :
      ErrSim (.unparseable n t) (.unparseable n' t)

/-- Parse results equal up to recorded line numbers: equal trees after
erasure, or errors equal up to the line number. -/
def ResultSim : Except ParseError Node → Except ParseError Node → Prop
  | .ok t, .ok t' => eraseLN t = eraseLN t'
  | .error e, .error e' => ErrSim e e'
  | _, _ => False

/-- Inner results of parseYAML_inner related: values equal after erasure and
final generator states still related (with at most the remaining budget of
inserted lines), or errors equal up to the line number. -/
def InnerSim (k : Nat) : Except ParseError (Node × GenState) →
    Except ParseError (Node × GenState) → Prop
  | .ok (t, st), .ok (t', st') =>
      eraseLN t = eraseLN t' ∧ ∃ k2, k2 ≤ k ∧ RState k2 st st'
  | .error e, .error e' => ErrSim e e'
  | _, _ => False

/-- The simulation statement for runs bounded by N: runs from related
states, with related accumulated values, yield related results, for any
sufficient fuel on the modified side. -/
def BisimAt (N : Nat) : Prop :=
  ∀ (f k ind : Nat) (r r' : Node) (st st' : GenState),
    f + k ≤ N → RState k st st' → eraseLN r = eraseLN r' →
    ∀ res, parseYAML_inner f st ind r = some res →
    ∀ F, f + k ≤ F →
    ∃ res', parseYAML_inner F st' ind r' = some res' ∧ InnerSim k res res'

/-- The payload a line contributes: the stripped lineContent its yamlLineRegex
match produces (source lines 93 to 96), empty for an unmatched line. -/
def linePayload (s : String) : String :=
  match yamlLineMatch s with
  | some g => lineContentOf g
  | none => ""

/-- The line is neither blank nor comment and its match carries no item
marker and no key: parseYAML_inner reaches the scalar-accumulation branch
(source lines 139 to 153) on it. -/
def classifiesContent (s : String) : Bool :=
  !isSkipLine s &&
    (match yamlLineMatch s with
     | some g => g.itemMarker.isNone && (g.key.getD "" = "")
     | none => false)

/-- Join strings with single newline separators, in order. -/
def joinNL : List String → String
  | [] => ""
  | [s] => s
  | s :: rest => s ++ "\n" ++ joinNL rest

/-! Rewriting equations for eraseLN without the attach plumbing. -/

@[simp]
theorem eraseLN_null : eraseLN .null = .null := by
  simp [eraseLN]

@[simp]
theorem eraseLN_scalar (t : String) (n : Nat) : eraseLN (.scalar t n) = .scalar t 0 := by
  simp [eraseLN]

@[simp]
theorem eraseLN_seq (items : List Node) :
    eraseLN (.seq items) = .seq (items.map eraseLN) := by
  rw [eraseLN]
  rw [List.attach_map_val items eraseLN]

@[simp]
theorem eraseLN_dict (entries : List (String × Node)) :
    eraseLN (.dict entries) = .dict (entries.map (fun e => (e.1, eraseLN e.2))) := by
  rw [eraseLN]
  rw [List.attach_map_val entries (fun e => (e.1, eraseLN e.2))]

/-- C1: the source raises on the spec's first concrete scenario.  For the
input of four lines a: 1, b:, two items of x and y, parseYAML raises the
expectYAML exception with arguments type, dict, line 1, and the re-indented
payload of the first line, instead of returning a mapping: the caret in the
middle of yamlLineRegex anchors the key group to column 0, so the pushed-back
payload line three spaces then 1 reads as content at indent 0 and collides
with the dict committed at top level. -/
theorem parseYAML_scenario1_raises :
    parseYAMLtext "a: 1\nb:\n  - x\n  - y\n" =
      some (.error (.badYaml "type" "dict" 1 "   1")) := rfl

/-- C2: the classifier does not see indented keys.  On the line of two
spaces then a colon-key, yamlLineRegex yields an empty indent group and no
key group, classifying the whole line as content at indent 0, although the
line has two leading spaces and its remainder after them matches the key
pattern.  The caret of the second alternative only matches at position 0. -/
theorem classifier_indented_key :
    yamlLineMatch "  a: 1" =
      some { indentG := "", itemMarker := none, itemContent := none,
             key := none, keyExtra := none, content := some "  a: 1" } ∧
    ("  a: 1".data.takeWhile (fun c => c = ' ')).length = 2 := by
  exact ⟨rfl, rfl⟩

/-- C3: a committed sequence followed by a key line at the same baseline
does not raise.  The input of two lines, item dash 1 then x: 2, both
indented two spaces, commits the top block to a sequence with baseline 2 on
line 1, yet line 2 (a key line at that baseline) never raises TypeMismatch:
the parse returns the tree list-of-None, because the re-indented payload
line classifies at indent 0, is pushed back, terminates the top call, and
the key line is never consumed. -/
theorem kind_commitment_not_enforced :
    parseYAMLtext "  - 1\n  x: 2\n" = some (.ok (.seq [.null])) := rfl

/-- C9: the raised error does not carry the expected kind.  expectYAML
formats expected.__class__.__name__, which is the metaclass name type for
every class passed, so the error for a dict met while a yamlValue was
expected carries the strings type and dict, the line number and the
rstripped line, but not the expected kind yamlValue. -/
theorem expectYAML_expected_slot :
    expectYAML (.dict []) 1 "   1 " .yamlValueClass =
      .error (.badYaml "type" "dict" 1 "   1") ∧
    ("type" : String) ≠ "yamlValue" := by
  exact ⟨rfl, by decide⟩

/-- C8: the generator's queue discipline.  A pushed-back pair is the next
drawn and drawing it restores the previous state; pushes drain in reverse
order of insertion; with no pushback queued the next physical line is drawn;
end of input is signalled exactly when both the queue and the underlying
input are exhausted. -/
theorem generator_queue_laws :
    (∀ (st : GenState) (x : Nat × String), (st.send x).next = some (x, st)) ∧
    (∀ (st : GenState) (x y : Nat × String),
      ((st.send x).send y).next = some (y, st.send x)) ∧
    (∀ (n : Nat) (l : String) (src : List (Nat × String)),
      GenState.next ⟨[], (n, l) :: src⟩ = some ((n, l), ⟨[], src⟩)) ∧
    (∀ st : GenState, st.next = none ↔ st.backlines = [] ∧ st.source = []) := by
  refine ⟨fun st x => rfl, fun st x y => rfl, fun n l src => rfl, fun st => ?_⟩
  obtain ⟨bs, src⟩ := st
  cases bs <;> cases src <;> simp [GenState.next]

/-- C8 witness: the laws applied at a concrete state. -/
theorem generator_queue_laws_witness :
    ((GenState.mk [] [(1, "x")]).send (2, "y")).next =
      some ((2, "y"), ⟨[], [(1, "x")]⟩) :=
  generator_queue_laws.1 ⟨[], [(1, "x")]⟩ (2, "y")

/-- C10: parseYAML's string argument is first offered to the filesystem.
If a file of that name exists its contents are parsed; only otherwise is the
string itself split into lines and parsed; and the result for one and the
same string differs between the two cases. -/
theorem parseYAML_file_dispatch :
    (∀ (isfile : String → Option String) (source contents : String),
      isfile source = some contents →
      parseYAML isfile source = parseYAMLlines (splitLines contents)) ∧
    (∀ (isfile : String → Option String) (source : String),
      isfile source = none →
      parseYAML isfile source = parseYAMLlines (splitLines source)) ∧
    parseYAML (fun _ => some "hello") "a" ≠ parseYAML (fun _ => none) "a" := by
  refine ⟨?_, ?_, ?_⟩
  · intro isfile source contents h
    simp [parseYAML, parseYAML_generator, h]
  · intro isfile source h
    simp [parseYAML, parseYAML_generator, h]
  · have h1 : parseYAML (fun _ => some "hello") "a" =
        some (.ok (.scalar "hello" 1)) := rfl
    have h2 : parseYAML (fun _ => none) "a" = some (.ok (.scalar "a" 1)) := rfl
    rw [h1, h2]
    intro h
    simp only [Option.some.injEq, Except.ok.injEq, Node.scalar.injEq] at h
    exact absurd h.1 (by decide)

/-- C10 witness: the dispatch applied to a concrete oracle. -/
theorem parseYAML_file_dispatch_witness :
    parseYAML (fun _ => some "x") "y" = parseYAMLlines (splitLines "x") :=
  parseYAML_file_dispatch.1 (fun _ => some "x") "y" "x" rfl

/-- C4 counterexample: a run consisting of the single content line with
payload the vertical bar yields the scalar with empty text, not the joined
payloads (the bar), because the multiline-marker branch consumes the line
without contributing text. -/
theorem scalar_concat_cex :
    classifiesContent "|" = true ∧
    parseYAMLtext "|" = some (.ok (.scalar "" 1)) ∧
    joinNL (List.map linePayload ["|"]) = "|" ∧
    ("" : String) ≠ "|" := by
  exact ⟨rfl, rfl, rfl, by decide⟩

/-- C5 counterexample: the scalar committed on line 1 (the introducer bar)
ends the parse carrying source line 2: its linenumber was set to 1 when the
node was created and changed when the first text line arrived. -/
theorem scalar_lineno_cex :
    parseYAMLtext "|\nhello" = some (.ok (.scalar "hello" 2)) ∧ (2 : Nat) ≠ 1 := by
  exact ⟨rfl, by decide⟩

/-! Facts about the strip helpers, used to reason about payloads. -/

theorem stripLeft_eq_nil (cs : List Char) :
    stripLeft cs = [] ↔ cs.all isPySpace = true := by
  induction cs with
  | nil => simp [stripLeft]
  | cons c t ih =>
    by_cases hc : isPySpace c
    · simp [stripLeft, hc, ih]
    · simp [stripLeft, hc]

theorem stripLeft_idem (cs : List Char) :
    stripLeft (stripLeft cs) = stripLeft cs := by
  induction cs with
  | nil => simp [stripLeft]
  | cons c t ih =>
    by_cases hc : isPySpace c
    · simp [stripLeft, hc, ih]
    · simp [stripLeft, hc]

theorem stripLeft_all (cs : List Char) :
    (stripLeft cs).all isPySpace = cs.all isPySpace := by
  induction cs with
  | nil => simp [stripLeft]
  | cons c t ih =>
    by_cases hc : isPySpace c
    · simp [stripLeft, hc, ih]
    · simp [stripLeft, hc]

theorem stripLeft_append (xs ys : List Char) :
    stripLeft (xs ++ ys) =
      if stripLeft xs = [] then stripLeft ys else stripLeft xs ++ ys := by
  induction xs with
  | nil => simp [stripLeft]
  | cons c t ih =>
    by_cases hc : isPySpace c
    · simpa [stripLeft, hc] using ih
    · simp [stripLeft, hc]

theorem stripRight_eq_nil (cs : List Char) :
    stripRight cs = [] ↔ cs.all isPySpace = true := by
  rw [stripRight, List.reverse_eq_nil_iff, stripLeft_eq_nil, List.all_reverse]

theorem stripRight_cons (c : Char) (t : List Char) :
    stripRight (c :: t) =
      if isPySpace c ∧ stripRight t = [] then [] else c :: stripRight t := by
  have hrw : stripRight (c :: t) = (stripLeft (t.reverse ++ [c])).reverse := by
    rw [stripRight, List.reverse_cons]
  have hts : stripRight t = (stripLeft t.reverse).reverse := rfl
  rw [hrw, stripLeft_append, hts]
  by_cases h1 : stripLeft t.reverse = []
  · by_cases hc : isPySpace c
    · simp [h1, hc, stripLeft]
    · simp [h1, hc, stripLeft]
  · have h2 : (stripLeft t.reverse).reverse ≠ [] := by simpa using h1
    rw [if_neg h1, if_neg (fun hx => h2 hx.2)]
    simp [List.reverse_append]

theorem stripRight_idem (cs : List Char) :
    stripRight (stripRight cs) = stripRight cs := by
  rw [stripRight, stripRight, List.reverse_reverse, stripLeft_idem]

theorem stripLeft_length (cs : List Char) : (stripLeft cs).length ≤ cs.length := by
  induction cs with
  | nil => simp [stripLeft]
  | cons c t ih =>
    by_cases hc : isPySpace c
    · rw [stripLeft, if_pos hc]
      exact le_trans ih (by simp)
    · rw [stripLeft, if_neg hc]

theorem stripLeft_stripRight (cs : List Char) (h : stripLeft cs = cs) :
    stripLeft (stripRight cs) = stripRight cs := by
  cases cs with
  | nil => simp [stripRight, stripLeft]
  | cons c t =>
    have hc : isPySpace c = false := by
      by_contra hcc
      simp only [Bool.not_eq_false] at hcc
      rw [stripLeft, if_pos hcc] at h
      have h1 := stripLeft_length t
      rw [h] at h1
      simp at h1
    rw [stripRight_cons]
    by_cases h2 : stripRight t = []
    · simp [hc, h2, stripLeft]
    · simp only [hc, Bool.false_eq_true, false_and, if_neg, not_false_iff]
      rw [stripLeft, if_neg (by simp [hc])]

theorem mkStr_inj (a b : List Char) : (⟨a⟩ : String) = ⟨b⟩ ↔ a = b := by
  simp [String.ext_iff]

theorem pyStrip_empty_iff (s : String) :
    pyStrip s = "" ↔ s.data.all isPySpace = true := by
  rw [pyStrip]
  rw [show ("" : String) = ⟨[]⟩ from rfl]
  rw [mkStr_inj, stripRight_eq_nil, stripLeft_all]

theorem pyStrip_idem (s : String) : pyStrip (pyStrip s) = pyStrip s := by
  show (⟨stripRight (stripLeft (stripRight (stripLeft s.data)))⟩ : String) = _
  rw [stripLeft_stripRight _ (stripLeft_idem s.data), stripRight_idem]
  rfl

/-- C7 counterexample: inserting the comment line hash between the
introducer line and the content line changes the parse result: the scalar's
recorded source line moves from 2 to 3, so the trees are not equal. -/
theorem skip_transparency_cex :
    SkipIns ["|", "a"] ["|", "#", "a"] ∧
    parseYAMLlines ["|", "a"] = some (.ok (.scalar "a" 2)) ∧
    parseYAMLlines ["|", "#", "a"] = some (.ok (.scalar "a" 3)) ∧
    parseYAMLlines ["|", "#", "a"] ≠ parseYAMLlines ["|", "a"] := by
  refine ⟨.same "|" (.ins "#" rfl (.same "a" .nil)), rfl, rfl, ?_⟩
  have h1 : parseYAMLlines ["|", "a"] = some (.ok (.scalar "a" 2)) := rfl
  have h2 : parseYAMLlines ["|", "#", "a"] = some (.ok (.scalar "a" 3)) := rfl
  rw [h1, h2]
  intro h
  simp only [Option.some.injEq, Except.ok.injEq, Node.scalar.injEq] at h
  exact absurd h.2 (by decide)


theorem yamlLineMatch_content_inv (s : String) (g : YamlGroups)
    (h : yamlLineMatch s = some g) (hm : g.itemMarker = none)
    (hk : g.key.getD "" = "") :
    g = { indentG := "", itemMarker := none, itemContent := none,
          key := none, keyExtra := none,
          content := some ⟨s.data.takeWhile (fun c => c ≠ '\n')⟩ } ∧
    (s.data.dropWhile (fun c => c ≠ '\n')).all isPySpace = true := by
  simp only [yamlLineMatch] at h
  split at h
  · cases h
    simp at hm
  · rename_i hno
    split at h
    · rename_i hall
      split at h
      · rename_i after heq
        split at h
        · cases h
          exact ⟨rfl, hall⟩
        · rename_i hkr
          cases h
          exfalso
          apply hkr
          simp only [String.ext_iff] at hk
          simpa using hk
      · cases h
        exact ⟨rfl, hall⟩
    · exact Option.noConfusion h

theorem pyOrStr_some_none (x : String) : pyOrStr (some x) none = x := by
  show (if x = "" then (none : Option String).getD "" else x) = x
  split
  · rename_i hx
    simp [hx, Option.getD]
  · rfl

theorem linePayload_of_match (s : String) (g : YamlGroups)
    (h : yamlLineMatch s = some g) : linePayload s = lineContentOf g := by
  simp [linePayload, h]

theorem linePayload_strip (s : String) : pyStrip (linePayload s) = linePayload s := by
  unfold linePayload
  cases h : yamlLineMatch s
  · exact rfl
  · exact pyStrip_idem _

/-- Everything a later step needs to know about a content line. -/
theorem contentLine_facts (s : String) (h : classifiesContent s = true) :
    isSkipLine s = false ∧
    yamlLineMatch s =
      some { indentG := "", itemMarker := none, itemContent := none,
             key := none, keyExtra := none,
             content := some ⟨s.data.takeWhile (fun c => c ≠ '\n')⟩ } ∧
    linePayload s ≠ "" := by
  unfold classifiesContent at h
  cases hm : yamlLineMatch s with
  | none => rw [hm] at h; simp at h
  | some g =>
    rw [hm] at h
    simp only [Bool.and_eq_true, Bool.not_eq_true'] at h
    obtain ⟨hskip, hmk⟩ := h
    simp only [Bool.and_eq_true, Option.isNone_iff_eq_none, decide_eq_true_eq] at hmk
    obtain ⟨hmark, hkey⟩ := hmk
    obtain ⟨hg, hall⟩ := yamlLineMatch_content_inv s g hm hmark hkey
    subst hg
    refine ⟨hskip, rfl, ?_⟩
    have hpay : linePayload s = pyStrip ⟨s.data.takeWhile (fun c => c ≠ '\n')⟩ := by
      rw [linePayload_of_match s _ hm, lineContentOf, pyOrStr_some_none]
    rw [hpay]
    intro hempty
    rw [pyStrip_empty_iff] at hempty
    have hsdata : pyStrip s ≠ "" := by
      unfold isSkipLine at hskip
      simp only [Bool.or_eq_false_iff, decide_eq_false_iff_not] at hskip
      exact hskip.1
    rw [Ne, pyStrip_empty_iff] at hsdata
    apply hsdata
    have hsplit := List.takeWhile_append_dropWhile (p := fun c => decide (c ≠ '\n')) (l := s.data)
    rw [← hsplit, List.all_append]
    simp only [hempty, hall, Bool.and_self]



theorem content_step (s : String) (h : classifiesContent s = true)
    (f m : Nat) (rest : List (Nat × String)) (r : Node) :
    parseYAML_inner (f + 1) ⟨[], (m, s) :: rest⟩ 0 r =
      (match r with
       | .null =>
         if linePayload s = "|" || linePayload s = "|-" || linePayload s = ">" then
           parseYAML_inner f ⟨[], rest⟩ 0 (.scalar "" m)
         else
           parseYAML_inner f ⟨[], rest⟩ 0 (.scalar (linePayload s) m)
       | .scalar t ln =>
         if t = "" then
           parseYAML_inner f ⟨[], rest⟩ 0 (.scalar (linePayload s) m)
         else
           parseYAML_inner f ⟨[], rest⟩ 0 (.scalar (t ++ "\n" ++ linePayload s) ln)
       | other => some (.error (.badYaml "type" (typeName other) m (pyRstrip s)))) := by
  obtain ⟨hskip, hmatch, hne⟩ := contentLine_facts s h
  have hpay := (linePayload_of_match s _ hmatch).symm
  rw [parseYAML_inner]
  simp only [GenState.next, hskip, Bool.false_eq_true, if_false, hmatch]
  delta parseYAML_classified
  simp only [hpay, linePayload_strip, String.length_empty, Nat.not_lt_zero,
    Option.getD_none, ne_eq, not_true_eq_false, if_false]



theorem strAppend_ne_empty (a b : String) (ha : a ≠ "") : a ++ b ≠ "" := by
  intro h
  apply ha
  have h2 := congrArg String.data h
  rw [String.data_append] at h2
  have h3 := List.append_eq_nil.mp (by simpa using h2)
  rw [String.ext_iff]
  simpa using h3.1

theorem joinNL_cons_cons (a b : String) (l : List String) :
    joinNL (a :: b :: l) = a ++ "\n" ++ joinNL (b :: l) := rfl

theorem foldl_joinNL (ls : List String) (t : String) :
    ls.foldl (fun a s => a ++ "\n" ++ linePayload s) t = joinNL (t :: ls.map linePayload) := by
  induction ls generalizing t with
  | nil => rfl
  | cons s rest ih =>
    rw [List.foldl_cons, ih, List.map_cons, joinNL_cons_cons]
    cases hmap : rest.map linePayload with
    | nil => rfl
    | cons q l2 => rw [joinNL_cons_cons, joinNL_cons_cons]
                   simp [String.append_assoc]

theorem run_content (ls : List String) (f m : Nat) (t : String) (ln : Nat)
    (hall : ∀ s ∈ ls, classifiesContent s = true) (ht : t ≠ "")
    (hf : ls.length + 1 ≤ f) :
    parseYAML_inner f ⟨[], enumFrom m ls⟩ 0 (.scalar t ln) =
      some (.ok (.scalar (ls.foldl (fun a s => a ++ "\n" ++ linePayload s) t) ln,
        ⟨[], []⟩)) := by
  induction ls generalizing f m t ln with
  | nil =>
    obtain ⟨f0, rfl⟩ : ∃ f0, f = f0 + 1 := ⟨f - 1, by omega⟩
    rw [parseYAML_inner]
    rfl
  | cons s rest ih =>
    obtain ⟨f0, rfl⟩ : ∃ f0, f = f0 + 1 := ⟨f - 1, by omega⟩
    rw [show enumFrom m (s :: rest) = (m, s) :: enumFrom (m + 1) rest from rfl]
    rw [content_step s (hall s (by simp)) f0 m _ (.scalar t ln)]
    simp only []
    rw [if_neg ht]
    rw [ih f0 (m + 1) (t ++ "\n" ++ linePayload s) ln
      (fun x hx => hall x (by simp [hx])) (strAppend_ne_empty _ _ (strAppend_ne_empty _ _ ht))
      (by simpa using Nat.le_of_succ_le_succ (by simpa using hf))]
    rw [List.foldl_cons]



theorem fuelFor_ge (ls : List String) : ls.length + 1 ≤ fuelFor ls := by
  induction ls with
  | nil => simp [fuelFor]
  | cons s rest ih =>
    have h : fuelFor (s :: rest) = fuelFor rest + s.length + 4 := rfl
    rw [h, List.length_cons]
    omega

/-- C4 (amended): a run of content lines whose first payload is not a
multiline marker parses to the scalar joining all payloads with newlines,
recorded at the first line. -/
theorem scalar_concat (h0 : String) (rest : List String)
    (hall : ∀ s ∈ h0 :: rest, classifiesContent s = true)
    (hintro : ¬(linePayload h0 = "|" ∨ linePayload h0 = "|-" ∨ linePayload h0 = ">")) :
    parseYAMLlines (h0 :: rest) =
      some (.ok (.scalar (joinNL ((h0 :: rest).map linePayload)) 1)) := by
  unfold parseYAMLlines
  have hf := fuelFor_ge (h0 :: rest)
  obtain ⟨f0, hfeq⟩ : ∃ f0, fuelFor (h0 :: rest) = f0 + 1 := ⟨fuelFor (h0 :: rest) - 1, by omega⟩
  rw [hfeq]
  rw [show enumFrom 1 (h0 :: rest) = (1, h0) :: enumFrom 2 rest from rfl]
  rw [content_step h0 (hall h0 (by simp)) f0 1 _ .null]
  simp only []
  rw [if_neg (by simpa [or_assoc] using hintro)]
  rw [run_content rest f0 2 (linePayload h0) 1 (fun s hs => hall s (by simp [hs]))
    (contentLine_facts h0 (hall h0 (by simp))).2.2
    (by rw [hfeq, List.length_cons] at hf; omega)]
  rw [foldl_joinNL, List.map_cons]
  rfl

/-- Shared run: an introducer line then content lines. -/
theorem introRun (i0 : String) (ls : List String)
    (hc : classifiesContent i0 = true)
    (hmark : linePayload i0 = "|" ∨ linePayload i0 = "|-" ∨ linePayload i0 = ">")
    (hall : ∀ s ∈ ls, classifiesContent s = true) :
    parseYAMLlines (i0 :: ls) =
      some (.ok (.scalar (joinNL (ls.map linePayload))
        (if ls.isEmpty then 1 else 2))) := by
  unfold parseYAMLlines
  have hf := fuelFor_ge (i0 :: ls)
  obtain ⟨f0, hfeq⟩ : ∃ f0, fuelFor (i0 :: ls) = f0 + 1 := ⟨fuelFor (i0 :: ls) - 1, by omega⟩
  rw [hfeq]
  rw [show enumFrom 1 (i0 :: ls) = (1, i0) :: enumFrom 2 ls from rfl]
  rw [content_step i0 hc f0 1 _ .null]
  simp only []
  rw [if_pos (by simpa [or_assoc] using hmark)]
  rw [hfeq, List.length_cons] at hf
  cases ls with
  | nil =>
    obtain ⟨f1, rfl⟩ : ∃ f1, f0 = f1 + 1 := ⟨f0 - 1, by omega⟩
    rw [show enumFrom 2 ([] : List String) = [] from rfl]
    rw [parseYAML_inner]
    rfl
  | cons s rest =>
    obtain ⟨f1, rfl⟩ : ∃ f1, f0 = f1 + 1 := ⟨f0 - 1, by omega⟩
    rw [show enumFrom 2 (s :: rest) = (2, s) :: enumFrom 3 rest from rfl]
    rw [content_step s (hall s (by simp)) f1 2 _ (.scalar "" 1)]
    simp only [if_true]
    rw [run_content rest f1 3 (linePayload s) 2 (fun x hx => hall x (by simp [hx]))
      (contentLine_facts s (hall s (by simp))).2.2
      (by simp only [List.length_cons] at hf; omega)]
    rw [foldl_joinNL, List.map_cons]
    rfl

/-- C6: block-scalar introducer neutrality. -/
theorem introducer_neutrality (i0 : String) (ls : List String)
    (hc : classifiesContent i0 = true)
    (hmark : linePayload i0 = "|" ∨ linePayload i0 = "|-" ∨ linePayload i0 = ">")
    (hall : ∀ s ∈ ls, classifiesContent s = true) :
    ∃ ln, parseYAMLlines (i0 :: ls) =
      some (.ok (.scalar (joinNL (ls.map linePayload)) ln)) :=
  ⟨_, introRun i0 ls hc hmark hall⟩

/-- C6 witness. -/
theorem introducer_neutrality_witness :
    ∃ ln, parseYAMLlines ["|", "a", "b"] = some (.ok (.scalar "a\nb" ln)) :=
  introducer_neutrality "|" ["a", "b"] (by decide) (by decide) (by decide)

/-- C5 (amended): after an introducer line, the scalar ends the parse
carrying the number of the first content line after the introducer (line 2),
whatever follows. -/
theorem scalar_lineno_after_introducer (i0 s0 : String) (rest : List String)
    (hc : classifiesContent i0 = true)
    (hmark : linePayload i0 = "|" ∨ linePayload i0 = "|-" ∨ linePayload i0 = ">")
    (hall : ∀ s ∈ s0 :: rest, classifiesContent s = true) :
    parseYAMLlines (i0 :: s0 :: rest) =
      some (.ok (.scalar (joinNL ((s0 :: rest).map linePayload)) 2)) := by
  have h := introRun i0 (s0 :: rest) hc hmark hall
  simpa using h

/-- C5 witness. -/
theorem scalar_lineno_after_introducer_witness :
    parseYAMLlines ["|-", "x", "y"] = some (.ok (.scalar "x\ny" 2)) :=
  scalar_lineno_after_introducer "|-" "x" ["y"] (by decide) (by decide) (by decide)

/-- C4 witness. -/
theorem scalar_concat_witness :
    parseYAMLlines ["hello", "world"] = some (.ok (.scalar "hello\nworld" 1)) :=
  scalar_concat "hello" ["world"] (by decide) (by decide)



/-! Drawing one line from the generator, and the branch equations of
parseYAML_classified, as rewriting lemmas. -/

theorem inner_draw (f ind : Nat) (r : Node) (st st1 : GenState) (n : Nat) (s : String)
    (hnext : st.next = some ((n, s), st1)) :
    parseYAML_inner (f + 1) st ind r = parseYAML_step f n s st1 ind r := by
  rw [parseYAML_inner, hnext, parseYAML_step]

theorem inner_exhausted (f ind : Nat) (r : Node) (st : GenState)
    (hnext : st.next = none) :
    parseYAML_inner (f + 1) st ind r = some (.ok (r, st)) := by
  rw [parseYAML_inner, hnext]

theorem step_skip (f n ind : Nat) (s : String) (st1 : GenState) (r : Node)
    (h : isSkipLine s = true) :
    parseYAML_step f n s st1 ind r = parseYAML_inner f st1 ind r := by
  rw [parseYAML_step, if_pos h]

theorem step_nomatch (f n ind : Nat) (s : String) (st1 : GenState) (r : Node)
    (h : isSkipLine s = false) (hm : yamlLineMatch s = none) :
    parseYAML_step f n s st1 ind r = some (.error (.unparseable n (pyRstrip s))) := by
  rw [parseYAML_step, if_neg (by simp [h]), hm]

theorem step_classified (f n ind : Nat) (s : String) (g : YamlGroups)
    (st1 : GenState) (r : Node)
    (h : isSkipLine s = false) (hm : yamlLineMatch s = some g) :
    parseYAML_step f n s st1 ind r =
      parseYAML_classified
        (fun st2 indent2 returnItem2 => parseYAML_inner f st2 indent2 returnItem2)
        n s g st1 ind r := by
  rw [parseYAML_step, if_neg (by simp [h]), hm]

theorem classified_outdent (recur : GenState → Nat → Node →
      Option (Except ParseError (Node × GenState)))
    (n : Nat) (s : String) (g : YamlGroups) (st1 : GenState) (ind : Nat) (r : Node)
    (hlt : g.indentG.length < ind) :
    parseYAML_classified recur n s g st1 ind r = some (.ok (r, st1.send (n, s))) := by
  delta parseYAML_classified
  rw [if_pos hlt]

theorem classified_item (recur : GenState → Nat → Node →
      Option (Except ParseError (Node × GenState)))
    (n : Nat) (s : String) (g : YamlGroups) (st1 : GenState) (ind : Nat) (r : Node)
    (marker : String)
    (hlt : ¬ g.indentG.length < ind) (hmk : g.itemMarker = some marker) :
    parseYAML_classified recur n s g st1 ind r =
      (match r with
       | .null =>
         (match recur
             (st1.send (n, mkSpaces (g.indentG.length + marker.length) ++ lineContentOf g))
             (g.indentG.length + 1) .null with
          | none => none
          | some (.error e) => some (.error e)
          | some (.ok (child, st2)) => recur st2 g.indentG.length (.seq [child]))
       | .seq items =>
         (match recur
             (st1.send (n, mkSpaces (g.indentG.length + marker.length) ++ lineContentOf g))
             (ind + 1) .null with
          | none => none
          | some (.error e) => some (.error e)
          | some (.ok (child, st2)) => recur st2 ind (.seq (items ++ [child])))
       | other =>
         some (.error (.badYaml "type" (typeName other) n (pyRstrip s)))) := by
  delta parseYAML_classified
  rw [if_neg hlt, hmk]

theorem classified_key (recur : GenState → Nat → Node →
      Option (Except ParseError (Node × GenState)))
    (n : Nat) (s : String) (g : YamlGroups) (st1 : GenState) (ind : Nat) (r : Node)
    (hlt : ¬ g.indentG.length < ind) (hmk : g.itemMarker = none)
    (hkey : g.key.getD "" ≠ "") :
    parseYAML_classified recur n s g st1 ind r =
      (match r with
       | .null =>
         (match recur
             (st1.send (n, mkSpaces (g.indentG.length + (g.key.getD "").length
                + (g.keyExtra.getD "").length) ++ lineContentOf g))
             (g.indentG.length + 1) .null with
          | none => none
          | some (.error e) => some (.error e)
          | some (.ok (child, st2)) =>
            recur st2 g.indentG.length (.dict (dictInsert [] (g.key.getD "") child)))
       | .dict entries =>
         (match recur
             (st1.send (n, mkSpaces (g.indentG.length + (g.key.getD "").length
                + (g.keyExtra.getD "").length) ++ lineContentOf g))
             (ind + 1) .null with
          | none => none
          | some (.error e) => some (.error e)
          | some (.ok (child, st2)) =>
            recur st2 ind (.dict (dictInsert entries (g.key.getD "") child)))
       | other =>
         some (.error (.badYaml "type" (typeName other) n (pyRstrip s)))) := by
  delta parseYAML_classified
  rw [if_neg hlt, hmk]
  simp only [if_pos hkey]

theorem classified_content (recur : GenState → Nat → Node →
      Option (Except ParseError (Node × GenState)))
    (n : Nat) (s : String) (g : YamlGroups) (st1 : GenState) (ind : Nat) (r : Node)
    (hlt : ¬ g.indentG.length < ind) (hmk : g.itemMarker = none)
    (hkey : g.key.getD "" = "") :
    parseYAML_classified recur n s g st1 ind r =
      (match r with
       | .null =>
         if pyStrip (lineContentOf g) = "|" || pyStrip (lineContentOf g) = "|-"
             || pyStrip (lineContentOf g) = ">" then
           recur st1 ind (.scalar "" n)
         else
           recur st1 ind (.scalar (lineContentOf g) n)
       | .scalar t ln =>
         if t = "" then
           recur st1 ind (.scalar (lineContentOf g) n)
         else
           recur st1 ind (.scalar (t ++ "\n" ++ lineContentOf g) ln)
       | other =>
         some (.error (.badYaml "type" (typeName other) n (pyRstrip s)))) := by
  delta parseYAML_classified
  rw [if_neg hlt, hmk]
  simp only [hkey, ne_eq, not_true_eq_false, if_false]



theorem typeName_eraseLN (r : Node) : typeName (eraseLN r) = typeName r := by
  cases r <;> simp [typeName]

theorem typeName_congr (r r' : Node) (h : eraseLN r = eraseLN r') :
    typeName r = typeName r' := by
  rw [← typeName_eraseLN r, ← typeName_eraseLN r', h]

theorem erase_eq_null (r : Node) (h : eraseLN r = .null) : r = .null := by
  cases r <;> simp_all

theorem erase_eq_scalar (r : Node) (t : String) (z : Nat)
    (h : eraseLN r = .scalar t z) : ∃ ln, r = .scalar t ln := by
  cases r with
  | scalar t2 n2 =>
    simp only [eraseLN_scalar, Node.scalar.injEq] at h
    exact ⟨n2, by rw [h.1]⟩
  | null => simp at h
  | seq items => simp at h
  | dict es => simp at h

theorem erase_eq_seq (r : Node) (es : List Node)
    (h : eraseLN r = .seq es) : ∃ items, r = .seq items ∧ items.map eraseLN = es := by
  cases r with
  | seq items =>
    simp only [eraseLN_seq, Node.seq.injEq] at h
    exact ⟨items, rfl, h⟩
  | null => simp at h
  | scalar t2 n2 => simp at h
  | dict es2 => simp at h

theorem erase_eq_dict (r : Node) (es : List (String × Node))
    (h : eraseLN r = .dict es) :
    ∃ entries, r = .dict entries ∧ entries.map (fun e => (e.1, eraseLN e.2)) = es := by
  cases r with
  | dict entries =>
    simp only [eraseLN_dict, Node.dict.injEq] at h
    exact ⟨entries, rfl, h⟩
  | null => simp at h
  | scalar t2 n2 => simp at h
  | seq items => simp at h

theorem innerSim_mono {k k2 : Nat} (hk : k ≤ k2) :
    ∀ {a b : Except ParseError (Node × GenState)}, InnerSim k a b → InnerSim k2 a b
  | .ok (_, _), .ok (_, _), ⟨he, k1, hk1, hst⟩ => ⟨he, k1, hk1.trans hk, hst⟩
  | .error _, .error _, h => h

theorem rstate_send {k : Nat} {st st' : GenState} (h : RState k st st')
    (n n' : Nat) (s : String) :
    RState k (st.send (n, s)) (st'.send (n', s)) :=
  ⟨.same n n' s h.1, h.2⟩

theorem erase_seq_append (items items' : List Node) (v v' : Node)
    (h : items.map eraseLN = items'.map eraseLN) (hv : eraseLN v = eraseLN v') :
    eraseLN (.seq (items ++ [v])) = eraseLN (.seq (items' ++ [v'])) := by
  simp [h, hv]

theorem dictInsert_erase (k : String) (es es' : List (String × Node)) (v v' : Node)
    (h : es.map (fun e => (e.1, eraseLN e.2)) = es'.map (fun e => (e.1, eraseLN e.2)))
    (hv : eraseLN v = eraseLN v') :
    (dictInsert es k v).map (fun e => (e.1, eraseLN e.2)) =
      (dictInsert es' k v').map (fun e => (e.1, eraseLN e.2)) := by
  induction es generalizing es' with
  | nil =>
    have hnil : es' = [] := by cases es' <;> simp_all
    subst hnil
    simp [dictInsert, hv]
  | cons e rest ih =>
    cases es' with
    | nil => simp at h
    | cons e2 rest2 =>
      simp only [List.map_cons, List.cons.injEq] at h
      obtain ⟨hhead, htail⟩ := h
      have hpair := hhead
      simp only [Prod.mk.injEq] at hpair
      obtain ⟨h1, h2⟩ := hpair
      by_cases hk : e.1 = k
      · rw [show dictInsert (e :: rest) k v = (e.1, v) :: rest from by
            rw [dictInsert]
            simp [hk]]
        rw [show dictInsert (e2 :: rest2) k v' = (e2.1, v') :: rest2 from by
            rw [dictInsert]
            simp [h1 ▸ hk]]
        simp only [List.map_cons]
        rw [htail, h1, hv]
      · rw [show dictInsert (e :: rest) k v = e :: dictInsert rest k v from by
            rw [dictInsert]
            simp [hk]]
        rw [show dictInsert (e2 :: rest2) k v' = e2 :: dictInsert rest2 k v' from by
            rw [dictInsert]
            simp [h1 ▸ hk]]
        simp only [List.map_cons]
        rw [hhead, ih rest2 htail]



/-! The item, key and content branches, one equation per shape of the
accumulated value. -/

theorem classified_item_null (recur : GenState → Nat → Node →
      Option (Except ParseError (Node × GenState)))
    (n : Nat) (s : String) (g : YamlGroups) (st1 : GenState) (ind : Nat)
    (marker : String)
    (hlt : ¬ g.indentG.length < ind) (hmk : g.itemMarker = some marker) :
    parseYAML_classified recur n s g st1 ind .null =
      (match recur
          (st1.send (n, mkSpaces (g.indentG.length + marker.length) ++ lineContentOf g))
          (g.indentG.length + 1) .null with
       | none => none
       | some (.error e) => some (.error e)
       | some (.ok (child, st2)) => recur st2 g.indentG.length (.seq [child])) := by
  rw [classified_item recur n s g st1 ind .null marker hlt hmk]

theorem classified_item_seq (recur : GenState → Nat → Node →
      Option (Except ParseError (Node × GenState)))
    (n : Nat) (s : String) (g : YamlGroups) (st1 : GenState) (ind : Nat)
    (items : List Node) (marker : String)
    (hlt : ¬ g.indentG.length < ind) (hmk : g.itemMarker = some marker) :
    parseYAML_classified recur n s g st1 ind (.seq items) =
      (match recur
          (st1.send (n, mkSpaces (g.indentG.length + marker.length) ++ lineContentOf g))
          (ind + 1) .null with
       | none => none
       | some (.error e) => some (.error e)
       | some (.ok (child, st2)) => recur st2 ind (.seq (items ++ [child]))) := by
  rw [classified_item recur n s g st1 ind (.seq items) marker hlt hmk]

theorem classified_item_scalar (recur : GenState → Nat → Node →
      Option (Except ParseError (Node × GenState)))
    (n : Nat) (s : String) (g : YamlGroups) (st1 : GenState) (ind : Nat)
    (t : String) (ln : Nat) (marker : String)
    (hlt : ¬ g.indentG.length < ind) (hmk : g.itemMarker = some marker) :
    parseYAML_classified recur n s g st1 ind (.scalar t ln) =
      some (.error (.badYaml "type" "yamlValue" n (pyRstrip s))) := by
  rw [classified_item recur n s g st1 ind (.scalar t ln) marker hlt hmk]
  rfl

theorem classified_item_dict (recur : GenState → Nat → Node →
      Option (Except ParseError (Node × GenState)))
    (n : Nat) (s : String) (g : YamlGroups) (st1 : GenState) (ind : Nat)
    (es : List (String × Node)) (marker : String)
    (hlt : ¬ g.indentG.length < ind) (hmk : g.itemMarker = some marker) :
    parseYAML_classified recur n s g st1 ind (.dict es) =
      some (.error (.badYaml "type" "dict" n (pyRstrip s))) := by
  rw [classified_item recur n s g st1 ind (.dict es) marker hlt hmk]
  rfl

theorem classified_key_null (recur : GenState → Nat → Node →
      Option (Except ParseError (Node × GenState)))
    (n : Nat) (s : String) (g : YamlGroups) (st1 : GenState) (ind : Nat)
    (hlt : ¬ g.indentG.length < ind) (hmk : g.itemMarker = none)
    (hkey : g.key.getD "" ≠ "") :
    parseYAML_classified recur n s g st1 ind .null =
      (match recur
          (st1.send (n, mkSpaces (g.indentG.length + (g.key.getD "").length
             + (g.keyExtra.getD "").length) ++ lineContentOf g))
          (g.indentG.length + 1) .null with
       | none => none
       | some (.error e) => some (.error e)
       | some (.ok (child, st2)) =>
         recur st2 g.indentG.length (.dict (dictInsert [] (g.key.getD "") child))) := by
  rw [classified_key recur n s g st1 ind .null hlt hmk hkey]

theorem classified_key_dict (recur : GenState → Nat → Node →
      Option (Except ParseError (Node × GenState)))
    (n : Nat) (s : String) (g : YamlGroups) (st1 : GenState) (ind : Nat)
    (es : List (String × Node))
    (hlt : ¬ g.indentG.length < ind) (hmk : g.itemMarker = none)
    (hkey : g.key.getD "" ≠ "") :
    parseYAML_classified recur n s g st1 ind (.dict es) =
      (match recur
          (st1.send (n, mkSpaces (g.indentG.length + (g.key.getD "").length
             + (g.keyExtra.getD "").length) ++ lineContentOf g))
          (ind + 1) .null with
       | none => none
       | some (.error e) => some (.error e)
       | some (.ok (child, st2)) =>
         recur st2 ind (.dict (dictInsert es (g.key.getD "") child))) := by
  rw [classified_key recur n s g st1 ind (.dict es) hlt hmk hkey]

theorem classified_key_scalar (recur : GenState → Nat → Node →
      Option (Except ParseError (Node × GenState)))
    (n : Nat) (s : String) (g : YamlGroups) (st1 : GenState) (ind : Nat)
    (t : String) (ln : Nat)
    (hlt : ¬ g.indentG.length < ind) (hmk : g.itemMarker = none)
    (hkey : g.key.getD "" ≠ "") :
    parseYAML_classified recur n s g st1 ind (.scalar t ln) =
      some (.error (.badYaml "type" "yamlValue" n (pyRstrip s))) := by
  rw [classified_key recur n s g st1 ind (.scalar t ln) hlt hmk hkey]
  rfl

theorem classified_key_seq (recur : GenState → Nat → Node →
      Option (Except ParseError (Node × GenState)))
    (n : Nat) (s : String) (g : YamlGroups) (st1 : GenState) (ind : Nat)
    (items : List Node)
    (hlt : ¬ g.indentG.length < ind) (hmk : g.itemMarker = none)
    (hkey : g.key.getD "" ≠ "") :
    parseYAML_classified recur n s g st1 ind (.seq items) =
      some (.error (.badYaml "type" "list" n (pyRstrip s))) := by
  rw [classified_key recur n s g st1 ind (.seq items) hlt hmk hkey]
  rfl

theorem classified_content_null (recur : GenState → Nat → Node →
      Option (Except ParseError (Node × GenState)))
    (n : Nat) (s : String) (g : YamlGroups) (st1 : GenState) (ind : Nat)
    (hlt : ¬ g.indentG.length < ind) (hmk : g.itemMarker = none)
    (hkey : g.key.getD "" = "") :
    parseYAML_classified recur n s g st1 ind .null =
      (if pyStrip (lineContentOf g) = "|" || pyStrip (lineContentOf g) = "|-"
           || pyStrip (lineContentOf g) = ">" then
         recur st1 ind (.scalar "" n)
       else
         recur st1 ind (.scalar (lineContentOf g) n)) := by
  rw [classified_content recur n s g st1 ind .null hlt hmk hkey]

theorem classified_content_scalar (recur : GenState → Nat → Node →
      Option (Except ParseError (Node × GenState)))
    (n : Nat) (s : String) (g : YamlGroups) (st1 : GenState) (ind : Nat)
    (t : String) (ln : Nat)
    (hlt : ¬ g.indentG.length < ind) (hmk : g.itemMarker = none)
    (hkey : g.key.getD "" = "") :
    parseYAML_classified recur n s g st1 ind (.scalar t ln) =
      (if t = "" then recur st1 ind (.scalar (lineContentOf g) n)
       else recur st1 ind (.scalar (t ++ "\n" ++ lineContentOf g) ln)) := by
  rw [classified_content recur n s g st1 ind (.scalar t ln) hlt hmk hkey]

theorem classified_content_seq (recur : GenState → Nat → Node →
      Option (Except ParseError (Node × GenState)))
    (n : Nat) (s : String) (g : YamlGroups) (st1 : GenState) (ind : Nat)
    (items : List Node)
    (hlt : ¬ g.indentG.length < ind) (hmk : g.itemMarker = none)
    (hkey : g.key.getD "" = "") :
    parseYAML_classified recur n s g st1 ind (.seq items) =
      some (.error (.badYaml "type" "list" n (pyRstrip s))) := by
  rw [classified_content recur n s g st1 ind (.seq items) hlt hmk hkey]
  rfl

theorem classified_content_dict (recur : GenState → Nat → Node →
      Option (Except ParseError (Node × GenState)))
    (n : Nat) (s : String) (g : YamlGroups) (st1 : GenState) (ind : Nat)
    (es : List (String × Node))
    (hlt : ¬ g.indentG.length < ind) (hmk : g.itemMarker = none)
    (hkey : g.key.getD "" = "") :
    parseYAML_classified recur n s g st1 ind (.dict es) =
      some (.error (.badYaml "type" "dict" n (pyRstrip s))) := by
  rw [classified_content recur n s g st1 ind (.dict es) hlt hmk hkey]
  rfl



/-- One loop step preserves the simulation: the same line text, drawn on
both sides with possibly different numbers, from related states and related
accumulated values, yields related outcomes; the recursive calls are handled
by the induction hypothesis over the bound N. -/
theorem step_bisim (N f0 k ind : Nat) (IH : ∀ M, M < N → BisimAt M)
    (r r' : Node) (n n' : Nat) (s : String) (st1 st1' : GenState)
    (hN : f0 + 1 + k ≤ N)
    (hR : RState k st1 st1') (hr : eraseLN r = eraseLN r')
    (res : Except ParseError (Node × GenState))
    (hres : parseYAML_step f0 n s st1 ind r = some res)
    (F0 : Nat) (hF : f0 + k ≤ F0) :
    ∃ res', parseYAML_step F0 n' s st1' ind r' = some res' ∧ InnerSim k res res' := by
  by_cases hskip : isSkipLine s = true
  · rw [step_skip _ _ _ _ _ _ hskip] at hres
    rw [step_skip _ _ _ _ _ _ hskip]
    exact IH (f0 + k) (by omega) f0 k ind r r' st1 st1' (le_refl _) hR hr res hres F0 hF
  · have hsf : isSkipLine s = false := by simpa using hskip
    cases hm : yamlLineMatch s with
    | none =>
      rw [step_nomatch _ _ _ _ _ _ hsf hm] at hres
      rw [step_nomatch _ _ _ _ _ _ hsf hm]
      cases hres
      exact ⟨_, rfl, ErrSim.unparseable _ n n'⟩
    | some g =>
      rw [step_classified _ _ _ _ _ _ _ hsf hm] at hres
      rw [step_classified _ _ _ _ _ _ _ hsf hm]
      by_cases hlt : g.indentG.length < ind
      · rw [classified_outdent _ _ _ _ _ _ _ hlt] at hres
        rw [classified_outdent _ _ _ _ _ _ _ hlt]
        cases hres
        exact ⟨_, rfl, hr, k, le_refl k, rstate_send hR n n' s⟩
      · cases hmk : g.itemMarker with
        | some marker =>
          cases r with
          | null =>
            have hrn : r' = .null := erase_eq_null r' (hr.symm.trans eraseLN_null)
            subst hrn
            rw [classified_item_null _ _ _ _ _ _ _ hlt hmk] at hres
            cases hchild : parseYAML_inner f0
                (st1.send (n, mkSpaces (g.indentG.length + marker.length) ++ lineContentOf g))
                (g.indentG.length + 1) .null with
            | none =>
              rw [hchild] at hres
              exact Option.noConfusion hres
            | some cres =>
              rw [hchild] at hres
              obtain ⟨cres', hcres', hsim⟩ :=
                IH (f0 + k) (by omega) f0 k (g.indentG.length + 1) .null .null _ _
                  (le_refl _) (rstate_send hR n n' _) rfl cres hchild F0 hF
              cases cres with
              | error e =>
                have hres2 : some (Except.error (α := Node × GenState) e) = some res := hres
                cases hres2
                cases cres' with
                | error e2 =>
                  refine ⟨.error e2, ?_, hsim⟩
                  rw [classified_item_null _ _ _ _ _ _ _ hlt hmk, hcres']
                | ok p => exact hsim.elim
              | ok p =>
                obtain ⟨child, st2⟩ := p
                cases cres' with
                | error e2 => exact hsim.elim
                | ok p2 =>
                  obtain ⟨child2, st22⟩ := p2
                  obtain ⟨hce, k2, hk2, hR2⟩ := hsim
                  have hres2 : parseYAML_inner f0 st2 g.indentG.length (.seq [child])
                      = some res := hres
                  obtain ⟨res', hres3, hsim2⟩ :=
                    IH (f0 + k2) (by omega) f0 k2 g.indentG.length
                      (.seq [child]) (.seq [child2]) st2 st22 (le_refl _) hR2
                      (by simp [hce]) res hres2 F0 (by omega)
                  refine ⟨res', ?_, innerSim_mono hk2 hsim2⟩
                  rw [classified_item_null _ _ _ _ _ _ _ hlt hmk, hcres']
                  exact hres3
          | seq items =>
            obtain ⟨items2, hrs, hmap⟩ :=
              erase_eq_seq r' (items.map eraseLN) (hr.symm.trans (eraseLN_seq items))
            subst hrs
            rw [classified_item_seq _ _ _ _ _ _ _ _ hlt hmk] at hres
            cases hchild : parseYAML_inner f0
                (st1.send (n, mkSpaces (g.indentG.length + marker.length) ++ lineContentOf g))
                (ind + 1) .null with
            | none =>
              rw [hchild] at hres
              exact Option.noConfusion hres
            | some cres =>
              rw [hchild] at hres
              obtain ⟨cres', hcres', hsim⟩ :=
                IH (f0 + k) (by omega) f0 k (ind + 1) .null .null _ _
                  (le_refl _) (rstate_send hR n n' _) rfl cres hchild F0 hF
              cases cres with
              | error e =>
                have hres2 : some (Except.error (α := Node × GenState) e) = some res := hres
                cases hres2
                cases cres' with
                | error e2 =>
                  refine ⟨.error e2, ?_, hsim⟩
                  rw [classified_item_seq _ _ _ _ _ _ _ _ hlt hmk, hcres']
                | ok p => exact hsim.elim
              | ok p =>
                obtain ⟨child, st2⟩ := p
                cases cres' with
                | error e2 => exact hsim.elim
                | ok p2 =>
                  obtain ⟨child2, st22⟩ := p2
                  obtain ⟨hce, k2, hk2, hR2⟩ := hsim
                  have hres2 : parseYAML_inner f0 st2 ind (.seq (items ++ [child]))
                      = some res := hres
                  obtain ⟨res', hres3, hsim2⟩ :=
                    IH (f0 + k2) (by omega) f0 k2 ind
                      (.seq (items ++ [child])) (.seq (items2 ++ [child2])) st2 st22
                      (le_refl _) hR2
                      (erase_seq_append items items2 child child2 hmap.symm hce)
                      res hres2 F0 (by omega)
                  refine ⟨res', ?_, innerSim_mono hk2 hsim2⟩
                  rw [classified_item_seq _ _ _ _ _ _ _ _ hlt hmk, hcres']
                  exact hres3
          | scalar t ln =>
            obtain ⟨ln2, hrs⟩ := erase_eq_scalar r' t 0 (hr.symm.trans (eraseLN_scalar t ln))
            subst hrs
            rw [classified_item_scalar _ _ _ _ _ _ _ _ _ hlt hmk] at hres
            cases hres
            refine ⟨.error (.badYaml "type" "yamlValue" n' (pyRstrip s)), ?_, ?_⟩
            · rw [classified_item_scalar _ _ _ _ _ _ _ _ _ hlt hmk]
            · exact ErrSim.badYaml _ _ _ n n'
          | dict es =>
            obtain ⟨es2, hrs, hmap⟩ :=
              erase_eq_dict r' (es.map (fun e => (e.1, eraseLN e.2)))
                (hr.symm.trans (eraseLN_dict es))
            subst hrs
            rw [classified_item_dict _ _ _ _ _ _ _ _ hlt hmk] at hres
            cases hres
            refine ⟨.error (.badYaml "type" "dict" n' (pyRstrip s)), ?_, ?_⟩
            · rw [classified_item_dict _ _ _ _ _ _ _ _ hlt hmk]
            · exact ErrSim.badYaml _ _ _ n n'
        | none =>
          by_cases hkey : g.key.getD "" ≠ ""
          · cases r with
            | null =>
              have hrn : r' = .null := erase_eq_null r' (hr.symm.trans eraseLN_null)
              subst hrn
              rw [classified_key_null _ _ _ _ _ _ hlt hmk hkey] at hres
              cases hchild : parseYAML_inner f0
                  (st1.send (n, mkSpaces (g.indentG.length + (g.key.getD "").length
                     + (g.keyExtra.getD "").length) ++ lineContentOf g))
                  (g.indentG.length + 1) .null with
              | none =>
                rw [hchild] at hres
                exact Option.noConfusion hres
              | some cres =>
                rw [hchild] at hres
                obtain ⟨cres', hcres', hsim⟩ :=
                  IH (f0 + k) (by omega) f0 k (g.indentG.length + 1) .null .null _ _
                    (le_refl _) (rstate_send hR n n' _) rfl cres hchild F0 hF
                cases cres with
                | error e =>
                  have hres2 : some (Except.error (α := Node × GenState) e) = some res := hres
                  cases hres2
                  cases cres' with
                  | error e2 =>
                    refine ⟨.error e2, ?_, hsim⟩
                    rw [classified_key_null _ _ _ _ _ _ hlt hmk hkey, hcres']
                  | ok p => exact hsim.elim
                | ok p =>
                  obtain ⟨child, st2⟩ := p
                  cases cres' with
                  | error e2 => exact hsim.elim
                  | ok p2 =>
                    obtain ⟨child2, st22⟩ := p2
                    obtain ⟨hce, k2, hk2, hR2⟩ := hsim
                    have hres2 : parseYAML_inner f0 st2 g.indentG.length
                        (.dict (dictInsert [] (g.key.getD "") child)) = some res := hres
                    obtain ⟨res', hres3, hsim2⟩ :=
                      IH (f0 + k2) (by omega) f0 k2 g.indentG.length
                        (.dict (dictInsert [] (g.key.getD "") child))
                        (.dict (dictInsert [] (g.key.getD "") child2)) st2 st22
                        (le_refl _) hR2
                        (by
                          simp only [eraseLN_dict]
                          rw [dictInsert_erase _ [] [] child child2 rfl hce])
                        res hres2 F0 (by omega)
                    refine ⟨res', ?_, innerSim_mono hk2 hsim2⟩
                    rw [classified_key_null _ _ _ _ _ _ hlt hmk hkey, hcres']
                    exact hres3
            | dict es =>
              obtain ⟨es2, hrs, hmap⟩ :=
                erase_eq_dict r' (es.map (fun e => (e.1, eraseLN e.2)))
                  (hr.symm.trans (eraseLN_dict es))
              subst hrs
              rw [classified_key_dict _ _ _ _ _ _ _ hlt hmk hkey] at hres
              cases hchild : parseYAML_inner f0
                  (st1.send (n, mkSpaces (g.indentG.length + (g.key.getD "").length
                     + (g.keyExtra.getD "").length) ++ lineContentOf g))
                  (ind + 1) .null with
              | none =>
                rw [hchild] at hres
                exact Option.noConfusion hres
              | some cres =>
                rw [hchild] at hres
                obtain ⟨cres', hcres', hsim⟩ :=
                  IH (f0 + k) (by omega) f0 k (ind + 1) .null .null _ _
                    (le_refl _) (rstate_send hR n n' _) rfl cres hchild F0 hF
                cases cres with
                | error e =>
                  have hres2 : some (Except.error (α := Node × GenState) e) = some res := hres
                  cases hres2
                  cases cres' with
                  | error e2 =>
                    refine ⟨.error e2, ?_, hsim⟩
                    rw [classified_key_dict _ _ _ _ _ _ _ hlt hmk hkey, hcres']
                  | ok p => exact hsim.elim
                | ok p =>
                  obtain ⟨child, st2⟩ := p
                  cases cres' with
                  | error e2 => exact hsim.elim
                  | ok p2 =>
                    obtain ⟨child2, st22⟩ := p2
                    obtain ⟨hce, k2, hk2, hR2⟩ := hsim
                    have hres2 : parseYAML_inner f0 st2 ind
                        (.dict (dictInsert es (g.key.getD "") child)) = some res := hres
                    obtain ⟨res', hres3, hsim2⟩ :=
                      IH (f0 + k2) (by omega) f0 k2 ind
                        (.dict (dictInsert es (g.key.getD "") child))
                        (.dict (dictInsert es2 (g.key.getD "") child2)) st2 st22
                        (le_refl _) hR2
                        (by
                          simp only [eraseLN_dict]
                          rw [dictInsert_erase _ es es2 child child2 hmap.symm hce])
                        res hres2 F0 (by omega)
                    refine ⟨res', ?_, innerSim_mono hk2 hsim2⟩
                    rw [classified_key_dict _ _ _ _ _ _ _ hlt hmk hkey, hcres']
                    exact hres3
            | scalar t ln =>
              obtain ⟨ln2, hrs⟩ := erase_eq_scalar r' t 0 (hr.symm.trans (eraseLN_scalar t ln))
              subst hrs
              rw [classified_key_scalar _ _ _ _ _ _ _ _ hlt hmk hkey] at hres
              cases hres
              refine ⟨.error (.badYaml "type" "yamlValue" n' (pyRstrip s)), ?_, ?_⟩
              · rw [classified_key_scalar _ _ _ _ _ _ _ _ hlt hmk hkey]
              · exact ErrSim.badYaml _ _ _ n n'
            | seq items =>
              obtain ⟨items2, hrs, hmap⟩ :=
                erase_eq_seq r' (items.map eraseLN) (hr.symm.trans (eraseLN_seq items))
              subst hrs
              rw [classified_key_seq _ _ _ _ _ _ _ hlt hmk hkey] at hres
              cases hres
              refine ⟨.error (.badYaml "type" "list" n' (pyRstrip s)), ?_, ?_⟩
              · rw [classified_key_seq _ _ _ _ _ _ _ hlt hmk hkey]
              · exact ErrSim.badYaml _ _ _ n n'
          · have hkeq : g.key.getD "" = "" := by simpa using hkey
            cases r with
            | null =>
              have hrn : r' = .null := erase_eq_null r' (hr.symm.trans eraseLN_null)
              subst hrn
              rw [classified_content_null _ _ _ _ _ _ hlt hmk hkeq] at hres
              rw [classified_content_null _ _ _ _ _ _ hlt hmk hkeq]
              split at hres
              · rename_i hin
                rw [if_pos hin]
                exact IH (f0 + k) (by omega) f0 k ind (.scalar "" n) (.scalar "" n')
                  st1 st1' (le_refl _) hR (by simp) res hres F0 hF
              · rename_i hin
                rw [if_neg hin]
                exact IH (f0 + k) (by omega) f0 k ind
                  (.scalar (lineContentOf g) n) (.scalar (lineContentOf g) n')
                  st1 st1' (le_refl _) hR (by simp) res hres F0 hF
            | scalar t ln =>
              obtain ⟨ln2, hrs⟩ := erase_eq_scalar r' t 0 (hr.symm.trans (eraseLN_scalar t ln))
              subst hrs
              rw [classified_content_scalar _ _ _ _ _ _ _ _ hlt hmk hkeq] at hres
              rw [classified_content_scalar _ _ _ _ _ _ _ _ hlt hmk hkeq]
              split at hres
              · rename_i ht
                rw [if_pos ht]
                exact IH (f0 + k) (by omega) f0 k ind
                  (.scalar (lineContentOf g) n) (.scalar (lineContentOf g) n')
                  st1 st1' (le_refl _) hR (by simp) res hres F0 hF
              · rename_i ht
                rw [if_neg ht]
                exact IH (f0 + k) (by omega) f0 k ind
                  (.scalar (t ++ "\n" ++ lineContentOf g) ln)
                  (.scalar (t ++ "\n" ++ lineContentOf g) ln2)
                  st1 st1' (le_refl _) hR (by simp) res hres F0 hF
            | seq items =>
              obtain ⟨items2, hrs, hmap⟩ :=
                erase_eq_seq r' (items.map eraseLN) (hr.symm.trans (eraseLN_seq items))
              subst hrs
              rw [classified_content_seq _ _ _ _ _ _ _ hlt hmk hkeq] at hres
              cases hres
              refine ⟨.error (.badYaml "type" "list" n' (pyRstrip s)), ?_, ?_⟩
              · rw [classified_content_seq _ _ _ _ _ _ _ hlt hmk hkeq]
              · exact ErrSim.badYaml _ _ _ n n'
            | dict es =>
              obtain ⟨es2, hrs, hmap⟩ :=
                erase_eq_dict r' (es.map (fun e => (e.1, eraseLN e.2)))
                  (hr.symm.trans (eraseLN_dict es))
              subst hrs
              rw [classified_content_dict _ _ _ _ _ _ _ hlt hmk hkeq] at hres
              cases hres
              refine ⟨.error (.badYaml "type" "dict" n' (pyRstrip s)), ?_, ?_⟩
              · rw [classified_content_dict _ _ _ _ _ _ _ hlt hmk hkeq]
              · exact ErrSim.badYaml _ _ _ n n'



/-- The simulation holds at every bound: parseYAML_inner is insensitive, up
to recorded line numbers, to blank and comment lines inserted into its
source and to the line numbers carried by the stream. -/
theorem inner_bisim : ∀ N, BisimAt N := by
  intro N
  induction N using Nat.strong_induction_on with
  | _ N IH =>
    intro f k ind r r' st st' hN hR hr res hres F hF
    cases f with
    | zero => exact Option.noConfusion hres
    | succ f0 =>
      obtain ⟨F0, rfl⟩ : ∃ F0, F = F0 + 1 := ⟨F - 1, by omega⟩
      obtain ⟨hB, hS⟩ := hR
      obtain ⟨bl, src⟩ := st
      obtain ⟨bl', src'⟩ := st'
      cases hB with
      | same mb mb' sb hB2 =>
        rename_i tlB tlB'
        rw [inner_draw f0 ind r ⟨(mb, sb) :: tlB, src⟩ ⟨tlB, src⟩ mb sb rfl] at hres
        obtain ⟨res', h1, h2⟩ :=
          step_bisim N f0 k ind IH r r' mb mb' sb ⟨tlB, src⟩ ⟨tlB', src'⟩ hN
            ⟨hB2, hS⟩ hr res hres F0 (by omega)
        refine ⟨res', ?_, h2⟩
        rw [inner_draw F0 ind r' ⟨(mb', sb) :: tlB', src'⟩ ⟨tlB', src'⟩ mb' sb rfl]
        exact h1
      | nil =>
        cases hS with
        | nil =>
          rw [inner_exhausted f0 ind r ⟨[], []⟩ rfl] at hres
          cases hres
          refine ⟨.ok (r', ⟨[], []⟩), ?_, ?_⟩
          · rw [inner_exhausted F0 ind r' ⟨[], []⟩ rfl]
          · exact ⟨hr, 0, le_refl 0, StreamRel.nil, StreamRel.nil⟩
        | same nn nn' ss hS2 =>
          rename_i tl tl'
          rw [inner_draw f0 ind r ⟨[], (nn, ss) :: tl⟩ ⟨[], tl⟩ nn ss rfl] at hres
          obtain ⟨res', h1, h2⟩ :=
            step_bisim N f0 k ind IH r r' nn nn' ss ⟨[], tl⟩ ⟨[], tl'⟩ hN
              ⟨StreamRel.nil, hS2⟩ hr res hres F0 (by omega)
          refine ⟨res', ?_, h2⟩
          rw [inner_draw F0 ind r' ⟨[], (nn', ss) :: tl'⟩ ⟨[], tl'⟩ nn' ss rfl]
          exact h1
        | ins nn' ss hsk hS2 =>
          rename_i k1 tl'
          rw [inner_draw F0 ind r' ⟨[], (nn', ss) :: tl'⟩ ⟨[], tl'⟩ nn' ss rfl,
            step_skip F0 nn' ind ss ⟨[], tl'⟩ r' hsk]
          obtain ⟨res', h1, h2⟩ :=
            IH (f0 + 1 + k1) (by omega) (f0 + 1) k1 ind r r' ⟨[], src⟩ ⟨[], tl'⟩
              (le_refl _) ⟨StreamRel.nil, hS2⟩ hr res hres F0 (by omega)
          exact ⟨res', h1, innerSim_mono (by omega) h2⟩



theorem skipIns_streamRel {ls ls' : List String} (h : SkipIns ls ls') :
    ∀ m m', ∃ k, StreamRel k (enumFrom m ls) (enumFrom m' ls') ∧
      k + fuelFor ls ≤ fuelFor ls' := by
  induction h with
  | nil => exact fun m m' => ⟨0, StreamRel.nil, le_refl _⟩
  | same s hsub ih =>
    rename_i l l'
    intro m m'
    obtain ⟨k, hrel, hfuel⟩ := ih (m + 1) (m' + 1)
    refine ⟨k, StreamRel.same m m' s hrel, ?_⟩
    have h1 : fuelFor (s :: l) = fuelFor l + s.length + 4 := rfl
    have h2 : fuelFor (s :: l') = fuelFor l' + s.length + 4 := rfl
    omega
  | ins s hskip hsub ih =>
    rename_i l l'
    intro m m'
    obtain ⟨k, hrel, hfuel⟩ := ih m (m' + 1)
    refine ⟨k + 1, StreamRel.ins m' s hskip hrel, ?_⟩
    have h2 : fuelFor (s :: l') = fuelFor l' + s.length + 4 := rfl
    omega

theorem innerSim_resultSim {k : Nat} :
    ∀ {a b : Except ParseError (Node × GenState)}, InnerSim k a b →
      ResultSim (a.map Prod.fst) (b.map Prod.fst)
  | .ok (_, _), .ok (_, _), ⟨he, _⟩ => he
  | .error _, .error _, h => h

/-- C7 (amended): inserting blank lines or comment lines at any position
changes the parse result only in the recorded line numbers: a successful
parse stays successful with the same tree up to scalar source lines, a
failing parse fails with the same error up to its line number. -/
theorem skip_transparency (ls ls' : List String) (hins : SkipIns ls ls')
    (res : Except ParseError Node) (hres : parseYAMLlines ls = some res) :
    ∃ res', parseYAMLlines ls' = some res' ∧ ResultSim res res' := by
  unfold parseYAMLlines at hres ⊢
  obtain ⟨res0, hres0, hmap⟩ := Option.map_eq_some'.mp hres
  obtain ⟨k, hrel, hfuel⟩ := skipIns_streamRel hins 1 1
  obtain ⟨res0', hres0', hsim⟩ :=
    inner_bisim (fuelFor ls + k) (fuelFor ls) k 0 .null .null
      ⟨[], enumFrom 1 ls⟩ ⟨[], enumFrom 1 ls'⟩ (le_refl _)
      ⟨StreamRel.nil, hrel⟩ rfl res0 hres0 (fuelFor ls') (by omega)
  refine ⟨res0'.map Prod.fst, ?_, ?_⟩
  · rw [hres0']
    rfl
  · rw [← hmap]
    exact innerSim_resultSim hsim

/-- C7 witness: the amended transparency applied to the counterexample's
input pair. -/
theorem skip_transparency_witness :
    ∃ res', parseYAMLlines ["|", "#", "a"] = some res' ∧
      ResultSim (.ok (.scalar "a" 2)) res' :=
  skip_transparency ["|", "a"] ["|", "#", "a"]
    (.same "|" (.ins "#" rfl (.same "a" .nil))) (.ok (.scalar "a" 2)) rfl


end ParsePolyglot
